import Mathlib

/-!
Verification of the doctest filtering engine (`aox.testing.doctest_filtering`
and `aox.testing.doctest_filter_parsing`).

Strings are modelled as `List Char`. Python `range(a, b)` objects are modelled
by `PyRange` with the same half-open membership. Fallible parsing functions
return `Except FilterErr`.
-/

/-- The whitespace characters Python's `str.strip` / `\s` recognise (ASCII). -/
def isPySpace (c : Char) : Bool :=
  c = ' ' || c = '\t' || c = '\n' || c = '\r' || c = '\x0b' || c = '\x0c'

/-- Python `str.strip()`: remove leading and trailing whitespace. -/
def pyStrip (l : List Char) : List Char :=
  (((l.dropWhile isPySpace).reverse).dropWhile isPySpace).reverse

/-- Python `str.split(sep)` for a single-character separator: every occurrence
of `sep` separates two (possibly empty) tokens; `"".split(sep) == [""]`. -/
def splitOnChar (sep : Char) : List Char → List (List Char)
  | [] => [[]]
  | x :: xs =>
    let rest := splitOnChar sep xs
    if x = sep then [] :: rest
    else
      match rest with
      | r :: rs => (x :: r) :: rs
      | [] => [[x]]

/-- Python `re.split(p+, s)` where `p` is a single-character class: maximal
runs of characters satisfying `p` separate tokens. -/
def splitRunsP (p : Char → Bool) : List Char → List (List Char)
  | [] => [[]]
  | x :: xs =>
    let rest := splitRunsP p xs
    if p x then
      match xs with
      | y :: _ => if p y then rest else [] :: rest
      | [] => [] :: rest
    else
      match rest with
      | r :: rs => (x :: r) :: rs
      | [] => [[x]]

/-- Digit sequence with Python 3 underscore rules: nonempty, starts with a
digit, single underscores may appear between digits only. This is the body
accepted by `int()` after the optional sign. -/
def digitsUGo : List Char → Bool
  | [] => true
  | c :: rest =>
    if c = '_' then
      match rest with
      | [] => false
      | d :: rest' => d.isDigit && digitsUGo rest'
    else c.isDigit && digitsUGo rest

/-- See `digitsUGo`: full digit-and-underscore body check. -/
def digitsU : List Char → Bool
  | [] => false
  | c :: rest => c.isDigit && digitsUGo rest

/-- Numeric value of a digit/underscore body (underscores are ignored). -/
def natValGo (acc : Nat) : List Char → Nat
  | [] => acc
  | c :: rest =>
    if c = '_' then natValGo acc rest
    else natValGo (acc * 10 + (c.toNat - '0'.toNat)) rest

/-- Numeric value of a digit/underscore body. -/
def natVal (l : List Char) : Nat := natValGo 0 l

/-- Python `int(s)` on ASCII input: strip whitespace, optional sign, then a
digit body (with underscore rules); `none` models `ValueError`. -/
def pyInt (l : List Char) : Option Int :=
  match pyStrip l with
  | [] => none
  | c :: rest =>
    if c = '+' then (if digitsU rest then some (natVal rest) else none)
    else if c = '-' then (if digitsU rest then some (-(natVal rest : Int)) else none)
    else if digitsU (c :: rest) then some (natVal (c :: rest)) else none

/-- The two exception kinds the filtering code can raise:
`InvalidTestFilterException` and `NotImplementedError`. -/
inductive FilterErr where
  | invalidTestFilter : FilterErr
  | notImplemented : FilterErr
deriving DecidableEq, Repr

deriving instance DecidableEq for Except

/-- A Python `range(start, stop)` object (step 1). -/
structure PyRange where
  start : Nat
  stop : Nat
deriving DecidableEq, Repr

/-- Python `i in range(start, stop)` for a `Nat` index. -/
def rangeContains (r : PyRange) (i : Nat) : Bool :=
  r.start ≤ i && i < r.stop

/-- `IndexedDocTestFilterParser.parse_number`: `int(...)`, rejecting parse
failures and negative values with `InvalidTestFilterException`. -/
def parse_number (l : List Char) : Except FilterErr Nat :=
  match pyInt l with
  | none => .error .invalidTestFilter
  | some n => if n < 0 then .error .invalidTestFilter else .ok n.toNat

/-- `IndexedDocTestFilterParser.parse_number_range`: one comma-separated
segment of an index specifier becomes a `range`. The source uses the literal
`10000` as end for open-ended ranges, giving `range(start, 10001)`. -/
def parse_number_range (l : List Char) : Except FilterErr PyRange :=
  let t := pyStrip l
  let parts := splitOnChar '-' t
  if parts.length > 2 then .error .invalidTestFilter
  else
    match parts with
    | [numberText] =>
      if numberText.isEmpty then .ok ⟨0, 10000 + 1⟩
      else do
        let n ← parse_number numberText
        .ok ⟨n, n + 1⟩
    | [startText, endText] =>
      if startText.isEmpty && endText.isEmpty then .ok ⟨0, 10000 + 1⟩
      else if startText.isEmpty then do
        let m ← parse_number endText
        .ok ⟨0, m + 1⟩
      else if endText.isEmpty then do
        let n ← parse_number startText
        .ok ⟨n, 10000 + 1⟩
      else do
        let n ← parse_number startText
        let m ← parse_number endText
        .ok ⟨n, m + 1⟩
    | _ => .error .invalidTestFilter

/-- Helper for `parse_number_ranges`: parse each segment in order, propagating
the first error (as the Python list comprehension does). -/
def parse_ranges_go : List (List Char) → Except FilterErr (List PyRange)
  | [] => .ok []
  | t :: ts => do
    let r ← parse_number_range t
    let rs ← parse_ranges_go ts
    .ok (r :: rs)

/-- `IndexedDocTestFilterParser.parse_number_ranges`: split on `,` and parse
each segment. -/
def parse_number_ranges (l : List Char) : Except FilterErr (List PyRange) :=
  parse_ranges_go (splitOnChar ',' l)

/-- A doctest `Example`; the engine only ever looks at its position, but the
fields take part in the `examples != test.examples` list comparison. -/
structure Example where
  source : List Char
  want : List Char
deriving DecidableEq, Repr

/-- A `doctest.DocTest`: a fully-qualified dotted name and an ordered list of
examples (plus the bookkeeping fields `copy.copy` carries over). -/
structure DocTest where
  name : List Char
  examples : List Example
  filename : List Char
  lineno : Nat
  docstring : List Char
deriving DecidableEq, Repr

/-- Matcher for the tail `(.*p1)(.*p2)...(.*pk)$` of a compiled name pattern:
each literal chunk may be preceded by any characters other than newline
(Python `.`), and `$` accepts the end of the string or a single trailing
newline. -/
def matchTail : List (List Char) → List Char → Bool
  | [], s => s.isEmpty || s = ['\n']
  | p :: ps, s =>
    (List.range (s.length + 1)).any fun i =>
      (s.take i).all (· ≠ '\n') && p.isPrefixOf (s.drop i)
        && matchTail ps (s.drop (i + p.length))

/-- `re.match` of the pattern `parse_test_name` builds: the literal chunks
joined by `.*`, anchored at the start (`re.match`) and at the end (`$`). -/
def regexMatch (parts : List (List Char)) (s : List Char) : Bool :=
  match parts with
  | [] => s.isEmpty || s = ['\n']
  | p0 :: rest => p0.isPrefixOf s && matchTail rest (s.drop p0.length)

/-- An `IndexedDocTestFilter`: a compiled name pattern (kept as its literal
chunks, separated in the real regex by `.*`) and optional index ranges. -/
structure IndexedDocTestFilter where
  name_regex : List (List Char)
  number_ranges : Option (List PyRange)
deriving DecidableEq, Repr

/-- `IndexedDocTestFilter.matches_test`: match the compiled name regex
against the test's fully-qualified name. -/
def matches_test (f : IndexedDocTestFilter) (test : DocTest) : Bool :=
  regexMatch f.name_regex test.name

/-- `IndexedDocTestFilter.matches_example`: `None` ranges match everything,
otherwise the index must lie in some range. The `test` and `example`
arguments are accepted (as in the source) but only the index is consulted. -/
def matches_example (f : IndexedDocTestFilter) (_test : DocTest)
    (_example : Example) (index : Nat) : Bool :=
  match f.number_ranges with
  | none => true
  | some rs => rs.any fun r => rangeContains r index

/-- `IndexedDocTestFilterParser.get_filter_parts`: strip, split on `:`,
allow at most a name part and a ranges part. -/
def get_filter_parts (l : List Char) :
    Except FilterErr (List Char × List Char) :=
  let t := pyStrip l
  let parts := splitOnChar ':' t
  if parts.length > 2 then .error .invalidTestFilter
  else
    match parts with
    | [test_name_text] => .ok (test_name_text, [])
    | [test_name_text, numbers_text] => .ok (test_name_text, numbers_text)
    | _ => .error .invalidTestFilter

/-- `IndexedDocTestFilterParser.parse_test_name`: reject wildcard-only (or
empty) specifiers, prepend an implicit `*`, and split on runs of `*` into the
literal chunks of the regex `chunks.join(".*") + "$"`. -/
def parse_test_name (l : List Char) :
    Except FilterErr (List (List Char)) :=
  let t := pyStrip l
  if (t.filter (· ≠ '*')).isEmpty then .error .invalidTestFilter
  else .ok (splitRunsP (· = '*') ('*' :: t))

/-- `IndexedDocTestFilterParser.parse_filter`: split the token on `:`, compile
the name, and parse the (possibly empty) ranges text. Note the ranges are
always attached, even when the token had no `:`. -/
def parse_filter (l : List Char) : Except FilterErr IndexedDocTestFilter := do
  let (test_name_text, numbers_text) ← get_filter_parts l
  let pat ← parse_test_name test_name_text
  let rs ← parse_number_ranges numbers_text
  .ok ⟨pat, some rs⟩

/-- `DocTestFilterParser.split_filter_texts`: strip, return `[]` for an empty
result, otherwise split on runs of whitespace. -/
def split_filter_texts (l : List Char) : List (List Char) :=
  let t := pyStrip l
  if t.isEmpty then [] else splitRunsP isPySpace t

/-- Helper: parse each token of a filter expression in order with the given
single-token parser, propagating the first error. -/
def parse_filters_go (p : List Char → Except FilterErr IndexedDocTestFilter) :
    List (List Char) → Except FilterErr (List IndexedDocTestFilter)
  | [] => .ok []
  | t :: ts => do
    let f ← p t
    let fs ← parse_filters_go p ts
    .ok (f :: fs)

/-- `IndexedDocTestFilterParser.parse_filters`: split the expression and parse
each token via `IndexedDocTestFilterParser.parse_filter`. -/
def parse_filters (l : List Char) :
    Except FilterErr (List IndexedDocTestFilter) :=
  parse_filters_go parse_filter (split_filter_texts l)

/-- `DocTestFilterParser.parse_filter` on the abstract base class: always
raises `NotImplementedError`. -/
def base_parse_filter (_l : List Char) :
    Except FilterErr IndexedDocTestFilter :=
  .error .notImplemented

/-- `DocTestFilterParser.parse_filters` on the abstract base class: split the
expression and run the unimplemented `parse_filter` on each token. -/
def base_parse_filters (l : List Char) :
    Except FilterErr (List IndexedDocTestFilter) :=
  parse_filters_go base_parse_filter (split_filter_texts l)

/-- `FilteringDocTestFinder.filter_test`: drop the test when no filter
matches its name; keep the examples whose index some matching filter accepts;
drop the test when none survive; return the test itself when nothing was
trimmed, and a copy with the trimmed example list otherwise. -/
def filter_test (filters : List IndexedDocTestFilter) (test : DocTest) :
    Option DocTest :=
  let matching := filters.filter fun f => matches_test f test
  if matching.isEmpty then none
  else
    let examples :=
      ((test.examples.enum.filter fun p =>
        matching.any fun f => matches_example f test p.2 p.1).map Prod.snd)
    if examples.isEmpty then none
    else if examples ≠ test.examples then some { test with examples := examples }
    else some test

/-- `FilteringDocTestFinder.filter_tests` (list-of-filters overload): apply
`filter_test` to each test and drop the `None` results. -/
def filter_tests (tests : List DocTest)
    (filters : List IndexedDocTestFilter) : List DocTest :=
  tests.filterMap (filter_test filters)

/-- `FilteringDocTestFinder.filter_tests` with the string overload: the
filters text is parsed with the abstract base `DocTestFilterParser`. -/
def filter_tests_str (tests : List DocTest) (filters_text : List Char) :
    Except FilterErr (List DocTest) := do
  let filters ← base_parse_filters filters_text
  .ok (filter_tests tests filters)

/-- The filtering step of `FilteringDocTestFinder.find` (the spec's
`select`): an empty filter list leaves the discovered tests untouched,
otherwise they pass through `filter_tests`. -/
def select (tests : List DocTest) (filters : List IndexedDocTestFilter) :
    List DocTest :=
  if filters.isEmpty then tests else filter_tests tests filters

/-- The predicate of one comma-separated segment: does the range it parses to
contain index `i` (false when the segment does not parse)? -/
def seg_matches (seg : List Char) (i : Nat) : Bool :=
  match parse_number_range seg with
  | .ok r => rangeContains r i
  | .error _ => false

/-- The index predicate of a filter: what `matches_example` computes, which
depends only on the index (`none` ranges accept everything). -/
def index_matches (f : IndexedDocTestFilter) (i : Nat) : Bool :=
  match f.number_ranges with
  | none => true
  | some rs => rs.any fun r => rangeContains r i

/-- Keep the elements of `l` whose position (counting from `n`) satisfies
`Q`; this is what the `enumerate`-based comprehension in `filter_test`
computes (with `n = 0`). -/
def keepFrom (Q : Nat → Example → Bool) : Nat → List Example → List Example
  | _, [] => []
  | n, x :: xs => if Q n x then x :: keepFrom Q (n + 1) xs else keepFrom Q (n + 1) xs

/-- The filters whose name pattern matches `test` (the `matching` list of
`filter_test`). -/
def matching_of (filters : List IndexedDocTestFilter) (test : DocTest) :
    List IndexedDocTestFilter :=
  filters.filter fun f => matches_test f test

/-- The examples of `test` kept by `filter_test`: those whose index is
accepted by some name-matching filter. -/
def kept_of (filters : List IndexedDocTestFilter) (test : DocTest) :
    List Example :=
  keepFrom (fun i _ => (matching_of filters test).any fun f => index_matches f i)
    0 test.examples

/-! Concrete fixtures used by counterexamples and witnesses. -/

/-- A sample example (position 0 of `testX`). -/
def ex0 : Example := ⟨"1+1".data, "2".data⟩

/-- A sample example (position 1 of `testX`). -/
def ex1 : Example := ⟨"2+2".data, "4".data⟩

/-- A sample test named `x` with two examples. -/
def testX : DocTest := ⟨"x".data, [ex0, ex1], "file.py".data, 0, []⟩

/-- A sample test named `x` with no examples. -/
def testXEmpty : DocTest := ⟨"x".data, [], "file.py".data, 0, []⟩

/-- The filter the parser produces for the token `x:1` (example index 1
only). -/
def filterX1 : IndexedDocTestFilter := ⟨[[], "x".data], some [⟨1, 2⟩]⟩

/-- A filter for name `x` with no range restriction. -/
def filterXAll : IndexedDocTestFilter := ⟨[[], "x".data], none⟩

example : parse_filter "x:1".data = .ok filterX1 := by decide

-- Sanity checks against the source doctests.
example : parse_number_range "512".data = .ok ⟨512, 513⟩ := by decide
example : parse_number_range "256-512".data = .ok ⟨256, 513⟩ := by decide
example : parse_number_range "512-256".data = .ok ⟨512, 257⟩ := by decide
example : parse_number_range "-512".data = .ok ⟨0, 513⟩ := by decide
example : parse_number_range "512-".data = .ok ⟨512, 10001⟩ := by decide
example : parse_number_range "".data = .ok ⟨0, 10001⟩ := by decide
example : parse_number_range "-".data = .ok ⟨0, 10001⟩ := by decide
example : parse_number_range "256-512-768".data = .error .invalidTestFilter := by decide
example : parse_number_range "0xf".data = .error .invalidTestFilter := by decide
example : parse_number_range "5-abc".data = .error .invalidTestFilter := by decide
example : parse_number_ranges "1,5,7".data = .ok [⟨1, 2⟩, ⟨5, 6⟩, ⟨7, 8⟩] := by decide
example : parse_number_ranges "600-,10-0xf,,-5".data = .error .invalidTestFilter := by decide
example : get_filter_parts "method:512,3,-7".data = .ok ("method".data, "512,3,-7".data) := by decide
example : get_filter_parts ":".data = .ok ([], []) := by decide
example : get_filter_parts "method:512,3,-7:".data = .error .invalidTestFilter := by decide
example : parse_test_name "method".data = .ok [[], "method".data] := by decide
example : parse_test_name "***".data = .error .invalidTestFilter := by decide
example : parse_filter "method".data = .ok ⟨[[], "method".data], some [⟨0, 10001⟩]⟩ := by decide
example : (parse_test_name "method".data).map (fun p => regexMatch p "part_a.TypeA.method".data) = .ok true := by decide
example : (parse_test_name "method".data).map (fun p => regexMatch p "part_a.TypeA.method_plus".data) = .ok false := by decide
example : (parse_test_name "part_a.*method".data).map (fun p => regexMatch p "part_a.TypeB.plus_method".data) = .ok true := by decide
example : (parse_test_name "part_a.*method".data).map (fun p => regexMatch p "part_b.TypeA.method".data) = .ok false := by decide
example : split_filter_texts "     abc def      ghi   ".data = ["abc".data, "def".data, "ghi".data] := by decide

/-! Claim theorems. -/

/-- C7: the pattern compiled from `method` matches the fully-qualified name
`a.b.method` and not `a.b.method_plus`; the pattern from `method*` matches
both; the pattern from `part_a.*method` matches `part_a.TypeA.method` but not
`part_b.TypeA.method`. -/
theorem C7_wildcard_name_matching :
    (parse_test_name "method".data).map
      (fun p => matches_test ⟨p, none⟩ ⟨"a.b.method".data, [], [], 0, []⟩) = .ok true
  ∧ (parse_test_name "method".data).map
      (fun p => matches_test ⟨p, none⟩ ⟨"a.b.method_plus".data, [], [], 0, []⟩) = .ok false
  ∧ (parse_test_name "method*".data).map
      (fun p => matches_test ⟨p, none⟩ ⟨"a.b.method".data, [], [], 0, []⟩) = .ok true
  ∧ (parse_test_name "method*".data).map
      (fun p => matches_test ⟨p, none⟩ ⟨"a.b.method_plus".data, [], [], 0, []⟩) = .ok true
  ∧ (parse_test_name "part_a.*method".data).map
      (fun p => matches_test ⟨p, none⟩ ⟨"part_a.TypeA.method".data, [], [], 0, []⟩) = .ok true
  ∧ (parse_test_name "part_a.*method".data).map
      (fun p => matches_test ⟨p, none⟩ ⟨"part_b.TypeA.method".data, [], [], 0, []⟩) = .ok false := by
  decide

/-- C1 counterexample: with the single filter `x:1` (parsed from token
`x:1`, per the fixture check above) and a test named `x` with two examples,
one application of select keeps example 1 only, but the second application
re-indexes it to position 0, which the filter rejects, so the test is dropped:
select is not idempotent. -/
theorem C1_counterexample :
    select [testX] [filterX1] = [{ testX with examples := [ex1] }]
  ∧ select (select [testX] [filterX1]) [filterX1] = []
  ∧ select (select [testX] [filterX1]) [filterX1] ≠ select [testX] [filterX1] := by
  decide

/-- C2 counterexample: the filter parsed from the token `method` (no `:`)
carries the sentinel RangeSet `[range(0, 10001)]` rather than no RangeSet,
and it rejects example index 10001. -/
theorem C2_counterexample :
    (parse_filter "method".data).map (fun f => f.number_ranges)
      = .ok (some [⟨0, 10001⟩])
  ∧ (parse_filter "method".data).map (fun f => matches_example f testX ex0 10001)
      = .ok false := by
  decide

/-- C3 counterexample: the open-ended segments parse to the bounded range
`range(0, 10001)`, which does not contain index 10001, so the parsed ranges
are not unbounded above. -/
theorem C3_counterexample :
    parse_number_range "0-".data = .ok ⟨0, 10001⟩
  ∧ rangeContains ⟨0, 10001⟩ 10001 = false
  ∧ parse_number_range "-".data = .ok ⟨0, 10001⟩
  ∧ parse_number_range "".data = .ok ⟨0, 10001⟩ := by
  decide

/-- C9 counterexample: a test with zero examples whose name is matched, and
all of whose (zero) examples are kept, is nevertheless dropped by select, so
identity preservation fails for example-less tests. -/
theorem C9_counterexample :
    matches_test filterXAll testXEmpty = true
  ∧ (∀ j (h : j < testXEmpty.examples.length),
      matches_example filterXAll testXEmpty (testXEmpty.examples.get ⟨j, h⟩) j = true)
  ∧ filter_test [filterXAll] testXEmpty = none
  ∧ select [testXEmpty] [filterXAll] ≠ [testXEmpty] := by
  decide

/-! Supporting lemmas about the string helpers. -/

theorem dropWhile_eq_self_of_none {p : Char → Bool} {l : List Char}
    (h : ∀ c ∈ l, p c = false) : l.dropWhile p = l := by
  cases l with
  | nil => rfl
  | cons x xs =>
    rw [List.dropWhile_cons, h x (List.mem_cons_self x xs)]
    simp

theorem pyStrip_nil {l : List Char} (h : ∀ c ∈ l, isPySpace c = true) :
    pyStrip l = [] := by
  unfold pyStrip
  have h1 : l.dropWhile isPySpace = [] := by
    rw [List.dropWhile_eq_nil_iff]
    intro x hx
    simpa using h x hx
  rw [h1]
  rfl

theorem pyStrip_all_space {l : List Char} (h : pyStrip l = []) :
    ∀ c ∈ l, isPySpace c = true := by
  unfold pyStrip at h
  rw [List.reverse_eq_nil_iff, List.dropWhile_eq_nil_iff] at h
  intro c hc
  rcases List.mem_append.1 ((List.takeWhile_append_dropWhile (p := isPySpace) (l := l)) ▸ hc) with h1 | h1
  · exact List.mem_takeWhile_imp h1
  · simpa using h _ (List.mem_reverse.2 h1)

theorem pyStrip_no_space {l : List Char} (h : ∀ c ∈ l, isPySpace c = false) :
    pyStrip l = l := by
  unfold pyStrip
  rw [dropWhile_eq_self_of_none h,
    dropWhile_eq_self_of_none (fun c hc => h c (List.mem_reverse.1 hc)),
    List.reverse_reverse]

theorem splitOnChar_ne_nil (sep : Char) : ∀ l : List Char, splitOnChar sep l ≠ []
  | [] => by simp [splitOnChar]
  | x :: xs => by
    have h := splitOnChar_ne_nil sep xs
    cases hr : splitOnChar sep xs with
    | nil => exact absurd hr h
    | cons r rs => by_cases hx : x = sep <;> simp [splitOnChar, hr, hx]

theorem splitOnChar_no_sep (sep : Char) :
    ∀ l : List Char, (∀ x ∈ l, x ≠ sep) → splitOnChar sep l = [l]
  | [], _ => rfl
  | x :: xs, h => by
    have hx : x ≠ sep := h x (List.mem_cons_self x xs)
    have ih := splitOnChar_no_sep sep xs fun y hy => h y (List.mem_cons_of_mem x hy)
    simp [splitOnChar, ih, hx]

theorem splitOnChar_append (sep : Char) (s2 : List Char) :
    ∀ s1 : List Char, (∀ x ∈ s1, x ≠ sep) →
      splitOnChar sep (s1 ++ sep :: s2) = s1 :: splitOnChar sep s2
  | [], _ => by simp [splitOnChar]
  | x :: s1', h => by
    have hx : x ≠ sep := h x (List.mem_cons_self x s1')
    have ih := splitOnChar_append sep s2 s1'
      fun y hy => h y (List.mem_cons_of_mem x hy)
    simp [splitOnChar, ih, hx]

theorem splitOnChar_length (sep : Char) :
    ∀ l : List Char, (splitOnChar sep l).length = l.count sep + 1
  | [] => by simp [splitOnChar]
  | x :: xs => by
    have ih := splitOnChar_length sep xs
    have hne := splitOnChar_ne_nil sep xs
    by_cases hx : x = sep
    · subst hx
      simp [splitOnChar, List.count_cons, ih]
    · cases hr : splitOnChar sep xs with
      | nil => exact absurd hr hne
      | cons r rs =>
        rw [hr] at ih
        simp only [List.length_cons] at ih
        simp [splitOnChar, hx, hr, List.count_cons]
        omega

theorem splitRunsP_ne_nil (p : Char → Bool) :
    ∀ l : List Char, splitRunsP p l ≠ []
  | [] => by simp [splitRunsP]
  | x :: xs => by
    have ih := splitRunsP_ne_nil p xs
    by_cases hx : p x
    · cases xs with
      | nil => simp [splitRunsP, hx]
      | cons y ys =>
        by_cases hy : p y
        · simpa [splitRunsP, hx, hy] using ih
        · simp [splitRunsP, hx, hy]
    · cases hr : splitRunsP p xs with
      | nil => exact absurd hr ih
      | cons r rs => simp [splitRunsP, hx, hr]

/-- C6: parsing the empty string or an all-whitespace string yields the empty
filter list, and selecting with the empty filter list returns the input
tests unchanged. -/
theorem C6_empty_filter_pass_through (l : List Char)
    (h : ∀ c ∈ l, isPySpace c = true) :
    split_filter_texts l = [] ∧ parse_filters l = .ok []
      ∧ ∀ tests : List DocTest, select tests [] = tests := by
  have hs : split_filter_texts l = [] := by
    unfold split_filter_texts
    rw [pyStrip_nil h]
    rfl
  refine ⟨hs, ?_, fun tests => rfl⟩
  unfold parse_filters
  rw [hs]
  rfl

/-- C6 witness: instantiation at a concrete all-whitespace string. -/
theorem C6_witness :
    split_filter_texts "   ".data = [] ∧ parse_filters "   ".data = .ok []
      ∧ ∀ tests : List DocTest, select tests [] = tests :=
  C6_empty_filter_pass_through "   ".data (by decide)

/-- C10: calling the string overload of filter_tests with a non-blank
filters text always fails with NotImplementedError, because that branch
parses with the abstract base DocTestFilterParser. -/
theorem C10_string_overload_not_implemented (l : List Char)
    (h : ∃ c ∈ l, isPySpace c = false) (tests : List DocTest) :
    filter_tests_str tests l = .error .notImplemented := by
  obtain ⟨c, hc, hcs⟩ := h
  have hne : pyStrip l ≠ [] := by
    intro hnil
    have := pyStrip_all_space hnil c hc
    rw [hcs] at this
    exact Bool.false_ne_true this
  have hsplit : split_filter_texts l = splitRunsP isPySpace (pyStrip l) := by
    unfold split_filter_texts
    rw [if_neg (by simpa [List.isEmpty_iff] using hne)]
  obtain ⟨t0, ts, hts⟩ := List.exists_cons_of_ne_nil (splitRunsP_ne_nil isPySpace (pyStrip l))
  unfold filter_tests_str base_parse_filters
  rw [hsplit, hts]
  rfl

/-- C10 witness: instantiation at the concrete filters text abc. -/
theorem C10_witness :
    filter_tests_str [testX] "abc".data = .error .notImplemented :=
  C10_string_overload_not_implemented "abc".data (by decide) [testX]

/-- C8: a segment with more than one dash is rejected; a number position that
is not parseable as an integer, or parses negative, is rejected; the
segments 256-512-768, 0xf and 5-abc are all rejected with
InvalidTestFilterException. -/
theorem C8_malformed_rejection :
    (∀ l : List Char, 1 < (pyStrip l).count '-' →
        parse_number_range l = .error .invalidTestFilter)
  ∧ (∀ l : List Char, pyInt l = none →
        parse_number l = .error .invalidTestFilter)
  ∧ (∀ (l : List Char) (n : Int), pyInt l = some n → n < 0 →
        parse_number l = .error .invalidTestFilter)
  ∧ parse_number_range "256-512-768".data = .error .invalidTestFilter
  ∧ parse_number_range "0xf".data = .error .invalidTestFilter
  ∧ parse_number_range "5-abc".data = .error .invalidTestFilter := by
  refine ⟨?_, ?_, ?_, by decide, by decide, by decide⟩
  · intro l hcount
    unfold parse_number_range
    rw [if_pos]
    rw [splitOnChar_length]
    omega
  · intro l h
    unfold parse_number
    rw [h]
  · intro l n h hneg
    unfold parse_number
    rw [h]
    simp [hneg]

/-- C8 witness: the universal clauses applied at the concrete segments 1-2-3
and zz. -/
theorem C8_witness :
    parse_number_range "1-2-3".data = .error .invalidTestFilter
      ∧ parse_number "zz".data = .error .invalidTestFilter :=
  ⟨C8_malformed_rejection.1 "1-2-3".data (by decide),
   C8_malformed_rejection.2.1 "zz".data (by decide)⟩

/-! Digit-string lemmas. -/

theorem isPySpace_eq_false_of_isDigit {c : Char} (h : c.isDigit = true) :
    isPySpace c = false := by
  by_contra hns
  have hsp : isPySpace c = true := by
    revert hns
    cases isPySpace c <;> simp
  simp only [isPySpace, Bool.or_eq_true, decide_eq_true_eq] at hsp
  rcases hsp with ((((h1 | h1) | h1) | h1) | h1) | h1 <;>
    (subst h1; exact absurd h (by decide))

theorem digitsUGo_of_all_digits :
    ∀ l : List Char, (∀ c ∈ l, c.isDigit = true) → digitsUGo l = true
  | [], _ => rfl
  | c :: rest, h => by
    have hc := h c (List.mem_cons_self c rest)
    have hne : c ≠ '_' := by rintro rfl; exact absurd hc (by decide)
    have ih := digitsUGo_of_all_digits rest fun y hy => h y (List.mem_cons_of_mem c hy)
    unfold digitsUGo
    rw [if_neg hne, hc, ih]
    rfl

theorem digitsU_of_all_digits {l : List Char} (hne : l ≠ [])
    (h : ∀ c ∈ l, c.isDigit = true) : digitsU l = true := by
  cases l with
  | nil => exact absurd rfl hne
  | cons c rest =>
    have hc := h c (List.mem_cons_self c rest)
    have hrest := digitsUGo_of_all_digits rest fun y hy => h y (List.mem_cons_of_mem c hy)
    simp [digitsU, hc, hrest]

theorem pyInt_digits {l : List Char} (hne : l ≠ [])
    (h : ∀ c ∈ l, c.isDigit = true) : pyInt l = some (natVal l) := by
  have hstrip : pyStrip l = l :=
    pyStrip_no_space fun c hc => isPySpace_eq_false_of_isDigit (h c hc)
  unfold pyInt
  rw [hstrip]
  cases l with
  | nil => exact absurd rfl hne
  | cons c cs =>
    have hc := h c (List.mem_cons_self c cs)
    have h1 : c ≠ '+' := by rintro rfl; exact absurd hc (by decide)
    have h2 : c ≠ '-' := by rintro rfl; exact absurd hc (by decide)
    simp [h1, h2, digitsU_of_all_digits (List.cons_ne_nil c cs) h]

theorem parse_number_digits {l : List Char} (hne : l ≠ [])
    (h : ∀ c ∈ l, c.isDigit = true) : parse_number l = .ok (natVal l) := by
  unfold parse_number
  rw [pyInt_digits hne h]
  have h0 : ¬((natVal l : Int) < 0) := not_lt.2 (Int.natCast_nonneg _)
  simp [h0]

theorem ne_dash_of_isDigit {c : Char} (h : c.isDigit = true) : c ≠ '-' := by
  rintro rfl; exact absurd h (by decide)

/-- C3 (amended): the segment `N-` (digits then a dash) parses to the range
`[N, 10000]` — bounded above by the literal sentinel 10000, not unbounded —
and the empty segment and the single dash parse to `[0, 10000]`. -/
theorem C3_open_ended_ranges :
    (∀ s : List Char, s ≠ [] → (∀ c ∈ s, c.isDigit = true) →
        parse_number_range (s ++ ['-']) = .ok ⟨natVal s, 10001⟩)
  ∧ parse_number_range [] = .ok ⟨0, 10001⟩
  ∧ parse_number_range ['-'] = .ok ⟨0, 10001⟩
  ∧ (∀ r i : Nat, rangeContains ⟨r, 10001⟩ i
      = (decide (r ≤ i) && decide (i ≤ 10000))) := by
  refine ⟨?_, by decide, by decide, ?_⟩
  · intro s hne h
    have hnosp : ∀ c ∈ s ++ ['-'], isPySpace c = false := by
      intro c hc
      rcases List.mem_append.1 hc with h1 | h1
      · exact isPySpace_eq_false_of_isDigit (h c h1)
      · simp only [List.mem_singleton] at h1; subst h1; decide
    have hsplit : splitOnChar '-' (s ++ ['-']) = [s, []] := by
      have := splitOnChar_append '-' [] s
        fun x hx => ne_dash_of_isDigit (h x hx)
      simpa [splitOnChar] using this
    obtain ⟨a, as, rfl⟩ := List.exists_cons_of_ne_nil hne
    unfold parse_number_range
    rw [pyStrip_no_space hnosp]
    simp only [hsplit]
    simp [parse_number_digits hne h]
    rfl
  · intro r i
    simp [rangeContains, Nat.lt_succ_iff]

/-- C3 witness: the universal clause applied at the concrete segment `7-`. -/
theorem C3_witness : parse_number_range "7-".data = .ok ⟨7, 10001⟩ :=
  C3_open_ended_ranges.1 "7".data (by decide) (by decide)

/-- C4: the segment `N-M` (digits, dash, digits) always parses, to the range
containing exactly the indices `N ≤ i ≤ M`; `256-512` includes 256 and 512
but not 255 or 513; the reversed `512-256` parses and matches nothing. -/
theorem C4_closed_ranges :
    (∀ s1 s2 : List Char, s1 ≠ [] → s2 ≠ [] →
      (∀ c ∈ s1, c.isDigit = true) → (∀ c ∈ s2, c.isDigit = true) →
        parse_number_range (s1 ++ '-' :: s2) = .ok ⟨natVal s1, natVal s2 + 1⟩
      ∧ ∀ i : Nat, rangeContains ⟨natVal s1, natVal s2 + 1⟩ i
          = (decide (natVal s1 ≤ i) && decide (i ≤ natVal s2)))
  ∧ parse_number_range "256-512".data = .ok ⟨256, 513⟩
  ∧ rangeContains ⟨256, 513⟩ 256 = true
  ∧ rangeContains ⟨256, 513⟩ 512 = true
  ∧ rangeContains ⟨256, 513⟩ 255 = false
  ∧ rangeContains ⟨256, 513⟩ 513 = false
  ∧ parse_number_range "512-256".data = .ok ⟨512, 257⟩
  ∧ (∀ i : Nat, rangeContains ⟨512, 257⟩ i = false) := by
  refine ⟨?_, by decide, by decide, by decide, by decide, by decide, by decide, ?_⟩
  · intro s1 s2 hne1 hne2 h1 h2
    have hnosp : ∀ c ∈ s1 ++ '-' :: s2, isPySpace c = false := by
      intro c hc
      rcases List.mem_append.1 hc with hm | hm
      · exact isPySpace_eq_false_of_isDigit (h1 c hm)
      · rcases List.mem_cons.1 hm with hm1 | hm1
        · subst hm1; decide
        · exact isPySpace_eq_false_of_isDigit (h2 c hm1)
    have hsplit : splitOnChar '-' (s1 ++ '-' :: s2) = [s1, s2] := by
      rw [splitOnChar_append '-' s2 s1 fun x hx => ne_dash_of_isDigit (h1 x hx),
        splitOnChar_no_sep '-' s2 fun x hx => ne_dash_of_isDigit (h2 x hx)]
    constructor
    · obtain ⟨a, as, rfl⟩ := List.exists_cons_of_ne_nil hne1
      obtain ⟨b, bs, rfl⟩ := List.exists_cons_of_ne_nil hne2
      unfold parse_number_range
      rw [pyStrip_no_space hnosp]
      simp only [hsplit]
      simp [parse_number_digits hne1 h1, parse_number_digits hne2 h2]
      rfl
    · intro i
      simp [rangeContains, Nat.lt_succ_iff]
  · intro i
    simp [rangeContains]
    omega

/-- C4 witness: the universal clause applied at the concrete segment `2-5`. -/
theorem C4_witness :
    parse_number_range "2-5".data = .ok ⟨2, 6⟩
      ∧ ∀ i : Nat, rangeContains ⟨2, 6⟩ i = (decide (2 ≤ i) && decide (i ≤ 5)) :=
  C4_closed_ranges.1 "2".data "5".data (by decide) (by decide) (by decide) (by decide)

/-- C2 (amended): a filter token containing no colon is given the sentinel
RangeSet `[range(0, 10001)]` rather than an absent RangeSet, so the parsed
filter matches exactly the example indices `0 ≤ i ≤ 10000` (and rejects
larger indices). -/
theorem C2_no_colon_token (l : List Char) (f : IndexedDocTestFilter)
    (hnc : ∀ c ∈ pyStrip l, c ≠ ':') (hok : parse_filter l = .ok f) :
    f.number_ranges = some [⟨0, 10001⟩]
      ∧ ∀ (t : DocTest) (e : Example) (i : Nat),
          matches_example f t e i = decide (i ≤ 10000) := by
  have hs := splitOnChar_no_sep ':' (pyStrip l) hnc
  have hparts : get_filter_parts l = .ok (pyStrip l, []) := by
    unfold get_filter_parts
    simp only [hs]
    rfl
  have hstep : parse_filter l = (parse_test_name (pyStrip l)).bind fun pat =>
      (parse_number_ranges []).bind fun rs =>
        Except.ok (⟨pat, some rs⟩ : IndexedDocTestFilter) := by
    unfold parse_filter
    rw [hparts]
    rfl
  cases hpt : parse_test_name (pyStrip l) with
  | error e =>
    exfalso
    have hbad : parse_filter l = .error e := by
      rw [hstep, hpt]
      rfl
    rw [hbad] at hok
    simp at hok
  | ok pat =>
    have hpf : parse_filter l = .ok ⟨pat, some [⟨0, 10001⟩]⟩ := by
      rw [hstep, hpt]
      rfl
    rw [hpf] at hok
    injection hok with h
    subst h
    refine ⟨rfl, fun t e i => ?_⟩
    simp [matches_example, rangeContains, Nat.lt_succ_iff]

/-- C2 witness: the amended theorem applied to the token `method` and example
index 9999. -/
theorem C2_witness :
    matches_example ⟨[[], "method".data], some [⟨0, 10001⟩]⟩ testX ex0 9999
      = decide (9999 ≤ 10000) :=
  (C2_no_colon_token "method".data ⟨[[], "method".data], some [⟨0, 10001⟩]⟩
    (by decide) (by decide)).2 testX ex0 9999

theorem parse_ranges_go_union :
    ∀ (segs : List (List Char)) (rs : List PyRange),
      parse_ranges_go segs = .ok rs → ∀ i : Nat,
        (rs.any fun r => rangeContains r i) = segs.any fun seg => seg_matches seg i
  | [], rs, h, i => by
    have h' : ([] : List PyRange) = rs := by simpa [parse_ranges_go] using h
    subst h'
    rfl
  | seg :: segs, rs, h, i => by
    cases h1 : parse_number_range seg with
    | error e =>
      exfalso
      have hbad : parse_ranges_go (seg :: segs) = .error e := by
        unfold parse_ranges_go
        rw [h1]
        rfl
      rw [hbad] at h
      simp at h
    | ok r =>
      cases h2 : parse_ranges_go segs with
      | error e =>
        exfalso
        have hbad : parse_ranges_go (seg :: segs) = .error e := by
          unfold parse_ranges_go
          rw [h1, h2]
          rfl
        rw [hbad] at h
        simp at h
      | ok rs' =>
        have hcons : parse_ranges_go (seg :: segs) = .ok (r :: rs') := by
          unfold parse_ranges_go
          rw [h1, h2]
          rfl
        rw [hcons] at h
        injection h with h'
        subst h'
        have ih := parse_ranges_go_union segs rs' h2 i
        simp [List.any_cons, ih, seg_matches, h1]

/-- C5: when a comma-separated ranges text parses successfully, the
membership predicate of the resulting RangeSet (as used by matches_example)
is the pointwise union of the predicates of the individually parsed
segments. -/
theorem C5_range_set_union (l : List Char) (rs : List PyRange)
    (h : parse_number_ranges l = .ok rs) (i : Nat) (pat : List (List Char))
    (t : DocTest) (e : Example) :
    matches_example ⟨pat, some rs⟩ t e i
      = (splitOnChar ',' l).any fun seg => seg_matches seg i := by
  have hu := parse_ranges_go_union (splitOnChar ',' l) rs h i
  simpa [matches_example] using hu

/-- C5 witness: the union property applied to the ranges text `1,3-5` at
index 4. -/
theorem C5_witness :
    matches_example ⟨[[]], some [⟨1, 2⟩, ⟨3, 6⟩]⟩ testX ex0 4
      = (splitOnChar ',' "1,3-5".data).any fun seg => seg_matches seg 4 :=
  C5_range_set_union "1,3-5".data [⟨1, 2⟩, ⟨3, 6⟩] (by decide) 4 [[]] testX ex0

/-! Selector machinery: relating the enumerate-based comprehension of
`filter_test` to `keepFrom`, and downward-closure arguments. -/

theorem matches_example_eq_index_matches (f : IndexedDocTestFilter)
    (t : DocTest) (e : Example) (i : Nat) :
    matches_example f t e i = index_matches f i := rfl

theorem enumFrom_filter_map (P : Nat × Example → Bool) :
    ∀ (l : List Example) (n : Nat),
      (((List.enumFrom n l).filter P).map Prod.snd)
        = keepFrom (fun i e => P (i, e)) n l
  | [], _ => rfl
  | x :: xs, n => by
    have ih := enumFrom_filter_map P xs (n + 1)
    simp only [List.enumFrom, List.filter_cons]
    by_cases h : P (n, x)
    · simp [h, keepFrom, ih]
    · simp [h, keepFrom, ih]

theorem filter_test_eq (filters : List IndexedDocTestFilter) (test : DocTest) :
    filter_test filters test =
      if (matching_of filters test).isEmpty then none
      else if (kept_of filters test).isEmpty then none
      else if kept_of filters test ≠ test.examples then
        some { test with examples := kept_of filters test }
      else some test := by
  simp only [filter_test]
  rw [show test.examples.enum = List.enumFrom 0 test.examples from rfl,
    enumFrom_filter_map]
  rfl

theorem keepFrom_index_true {Q : Nat → Example → Bool}
    (hQ : ∀ (i j : Nat) (e e' : Example), j ≤ i → Q i e = true → Q j e' = true) :
    ∀ (l : List Example) (n j : Nat), j < (keepFrom Q n l).length →
      ∀ e' : Example, Q (n + j) e' = true
  | [], n, j, hj, e' => by simp [keepFrom] at hj
  | x :: xs, n, j, hj, e' => by
    by_cases hx : Q n x = true
    · cases j with
      | zero => simpa using hQ n n x e' (le_refl n) hx
      | succ j' =>
        have hj' : j' < (keepFrom Q (n + 1) xs).length := by
          simp only [keepFrom, hx, if_true, List.length_cons] at hj
          omega
        have hrec := keepFrom_index_true hQ xs (n + 1) j' hj' e'
        rw [show n + (j' + 1) = (n + 1) + j' by omega]
        exact hrec
    · have hj' : j < (keepFrom Q (n + 1) xs).length := by
        simpa [keepFrom, hx] using hj
      have hrec := keepFrom_index_true hQ xs (n + 1) j hj' e'
      exact hQ (n + 1 + j) (n + j) e' e' (by omega) hrec

theorem keepFrom_all_eq {Q : Nat → Example → Bool} :
    ∀ (l : List Example) (n : Nat),
      (∀ (j : Nat) (e : Example), j < l.length → Q (n + j) e = true) →
      keepFrom Q n l = l
  | [], _, _ => rfl
  | x :: xs, n, h => by
    have hx : Q n x = true := by simpa using h 0 x (by simp)
    have ih := keepFrom_all_eq xs (n + 1) fun j e hj => by
      have hh := h (j + 1) e (by simpa using Nat.succ_lt_succ hj)
      rw [show n + (j + 1) = (n + 1) + j by omega] at hh
      exact hh
    show (if Q n x then x :: keepFrom Q (n + 1) xs else keepFrom Q (n + 1) xs) = x :: xs
    rw [if_pos hx, ih]

theorem keepFrom_idem {Q : Nat → Example → Bool}
    (hQ : ∀ (i j : Nat) (e e' : Example), j ≤ i → Q i e = true → Q j e' = true)
    (l : List Example) :
    keepFrom Q 0 (keepFrom Q 0 l) = keepFrom Q 0 l :=
  keepFrom_all_eq _ 0 fun j e hj => by
    simpa using keepFrom_index_true hQ l 0 j (by simpa using hj) e

theorem any_index_downward {ms flt : List IndexedDocTestFilter}
    (hsub : ∀ f ∈ ms, f ∈ flt)
    (hDC : ∀ f ∈ flt, ∀ i j : Nat, j ≤ i →
      index_matches f i = true → index_matches f j = true)
    {i j : Nat} (hji : j ≤ i)
    (hi : (ms.any fun f => index_matches f i) = true) :
    (ms.any fun f => index_matches f j) = true := by
  simp only [List.any_eq_true] at hi ⊢
  obtain ⟨f, hf, hfi⟩ := hi
  exact ⟨f, hf, hDC f (hsub f hf) i j hji hfi⟩

theorem matching_of_eq_of_name {filters : List IndexedDocTestFilter}
    {t t' : DocTest} (h : t'.name = t.name) :
    matching_of filters t' = matching_of filters t := by
  unfold matching_of
  apply List.filter_congr
  intro f _
  unfold matches_test
  rw [h]

theorem filter_test_fix {filters : List IndexedDocTestFilter}
    (hDC : ∀ f ∈ filters, ∀ i j : Nat, j ≤ i →
      index_matches f i = true → index_matches f j = true)
    {t t' : DocTest} (h : filter_test filters t = some t') :
    filter_test filters t' = some t' := by
  rw [filter_test_eq] at h
  by_cases hm : (matching_of filters t).isEmpty = true
  · rw [if_pos hm] at h
    exact absurd h (by simp)
  · rw [if_neg hm] at h
    by_cases hk : (kept_of filters t).isEmpty = true
    · rw [if_pos hk] at h
      exact absurd h (by simp)
    · rw [if_neg hk] at h
      have hQ : ∀ (i j : Nat) (e e' : Example), j ≤ i →
          ((matching_of filters t).any fun f => index_matches f i) = true →
          ((matching_of filters t).any fun f => index_matches f j) = true :=
        fun i j _ _ hji hi =>
          any_index_downward (fun f hf => (List.mem_filter.1 hf).1) hDC hji hi
      have hfacts : t'.name = t.name ∧ t'.examples = kept_of filters t := by
        by_cases hne : kept_of filters t ≠ t.examples
        · rw [if_pos hne] at h
          injection h with h'
          subst h'
          exact ⟨rfl, rfl⟩
        · rw [if_neg hne] at h
          injection h with h'
          subst h'
          exact ⟨rfl, (not_not.1 hne).symm⟩
      obtain ⟨hn, hex⟩ := hfacts
      have hmt : matching_of filters t' = matching_of filters t :=
        matching_of_eq_of_name hn
      have hkt : kept_of filters t' = kept_of filters t := by
        unfold kept_of
        simp only [hmt, hex]
        exact keepFrom_idem (fun i j e e' hji hi => hQ i j e e' hji hi) t.examples
      rw [filter_test_eq, hmt, hkt, if_neg hm, if_neg hk,
        if_neg (show ¬kept_of filters t ≠ t'.examples by simp [hex])]

theorem filterMap_fix {g : DocTest → Option DocTest}
    (hg : ∀ t t', g t = some t' → g t' = some t') :
    ∀ l : List DocTest, List.filterMap g (List.filterMap g l) = List.filterMap g l
  | [] => rfl
  | t :: ts => by
    cases hgt : g t with
    | none => simp [List.filterMap_cons, hgt, filterMap_fix hg ts]
    | some t' => simp [List.filterMap_cons, hgt, hg t t' hgt, filterMap_fix hg ts]

/-- C1 (amended): select is idempotent provided every filter's example-index
predicate is downward-closed (accepting index `i` implies accepting every
`j ≤ i`) — which holds for every filter without an explicit range and for
`-M`-style ranges. Without this the second application can drop more, because
kept examples are re-indexed (see the counterexample with filter `x:1`). -/
theorem C1_select_idempotent_of_downward_closed
    (filters : List IndexedDocTestFilter)
    (hDC : ∀ f ∈ filters, ∀ i j : Nat, j ≤ i →
      index_matches f i = true → index_matches f j = true)
    (tests : List DocTest) :
    select (select tests filters) filters = select tests filters := by
  cases hfb : filters.isEmpty with
  | true => simp [select, hfb]
  | false =>
    simp only [select, hfb, Bool.false_eq_true, if_false]
    exact filterMap_fix (fun t t' h => filter_test_fix hDC h) tests

/-- C1 witness: the amended idempotence applied to a concrete name-only
filter (whose index predicate is trivially downward-closed) and one test. -/
theorem C1_witness :
    select (select [testX] [filterXAll]) [filterXAll] = select [testX] [filterXAll] :=
  C1_select_idempotent_of_downward_closed [filterXAll]
    (by
      intro f hf i j hji hi
      rw [List.mem_singleton] at hf
      subst hf
      rfl)
    [testX]

/-- C9 (amended): for a test with at least one Example whose name some filter
matches, if every one of its examples is kept by the matching filters then
`filter_test` returns the very same test value, and select passes it through
unchanged. -/
theorem C9_identity_preservation
    (filters : List IndexedDocTestFilter) (t : DocTest)
    (hmatch : ∃ f ∈ filters, matches_test f t = true)
    (hne : t.examples ≠ [])
    (hkeep : ∀ j (hj : j < t.examples.length), ∃ f ∈ filters,
      matches_test f t = true
        ∧ matches_example f t (t.examples.get ⟨j, hj⟩) j = true) :
    filter_test filters t = some t ∧ select [t] filters = [t] := by
  obtain ⟨f0, hf0, hf0m⟩ := hmatch
  have hmem : f0 ∈ matching_of filters t := List.mem_filter.2 ⟨hf0, hf0m⟩
  have hm : (matching_of filters t).isEmpty = false := by
    cases hml : matching_of filters t with
    | nil => rw [hml] at hmem; exact absurd hmem (List.not_mem_nil f0)
    | cons a l => rfl
  have hkept : kept_of filters t = t.examples := by
    unfold kept_of
    apply keepFrom_all_eq
    intro j e hj
    simp only [Nat.zero_add]
    obtain ⟨f, hf, hfm, hfe⟩ := hkeep j hj
    exact List.any_eq_true.2 ⟨f, List.mem_filter.2 ⟨hf, hfm⟩, hfe⟩
  have hft : filter_test filters t = some t := by
    rw [filter_test_eq, hkept, hm]
    simp [List.isEmpty_iff, hne]
  refine ⟨hft, ?_⟩
  have hfe : filters.isEmpty = false := by
    cases filters with
    | nil => exact absurd hf0 (List.not_mem_nil f0)
    | cons a l => rfl
  simp [select, hfe, filter_tests, List.filterMap_cons, hft]

/-- C9 witness: the amended theorem applied to a two-example test and a
name-only filter that keeps everything. -/
theorem C9_witness :
    filter_test [filterXAll] testX = some testX
      ∧ select [testX] [filterXAll] = [testX] :=
  C9_identity_preservation [filterXAll] testX (by decide) (by decide) (by decide)
